import Mathlib

/-!
Verification of the binary-format core of `pop-fe.py`.

The development shallowly embeds the byte-exact parts of the program:

* the BCD codec `bcd` embedded from `pop-fe.py:403`;
* the TOC synthesizer `get_toc_from_cu2` (`pop-fe.py:402-448`), with CU2
  files modelled as lists of lines, each line a `List Char`;
* the libcrypt magic-word derivation `generate_magic_word`
  (`pop-fe.py:152-207`), restricted to its pure text-scanning core (the
  HTTP fetch is out of the embedding: the function here receives the
  decoded report text);
* the memory-card classifier `check_memory_card` (`pop-fe.py:834-852`),
  with dump files modelled as byte lists;
* the blank-card builder `create_blank_mc` (`pop-fe.py:877-914`), with the
  output file modelled as a byte store (size plus contents function,
  seek-and-write semantics with zero fill on extension);
* the libcrypt patch engine `apply_ppf` (`pop-fe.py:1015-1058`): the
  automatic signature-scan mode as a pure function on byte lists, and the
  table-driven mode with the network fetch, archive extraction and the
  PPF applicator (which live outside `pop-fe.py`) abstracted as
  parameters.

Python integers are `Int` (with `Int.tdiv` for `int(x / y)` truncation and
`%` matching Python's nonnegative remainder for positive divisors), byte
values are `Nat`, and Python slices `s[a:b]` become `take`/`drop`.
Fallible Python code (exceptions) returns `Option`.
-/

/-! ## Python primitive helpers -/

/-- Characters stripped by Python's `int()` conversion (`str.strip`
whitespace, restricted to the ASCII whitespace that can occur in the
inputs the program reads). -/
def isPySpace (c : Char) : Bool :=
  c = ' ' || c = '\n' || c = '\t' || c = '\r' || c = '\x0b' || c = '\x0c'

/-- Whitespace stripping from both ends, as Python's `str.strip()`. -/
def pyStrip (s : List Char) : List Char :=
  ((s.dropWhile isPySpace).reverse.dropWhile isPySpace).reverse

/-- Value of a nonempty all-digit string, the digit core of Python `int()`. -/
def digitsVal (l : List Char) : Option Nat :=
  if l.isEmpty || !l.all Char.isDigit then none
  else some (l.foldl (fun a c => 10 * a + (c.toNat - 48)) 0)

/-- Python `int(s)` on a string: strip whitespace, optional sign, digits;
`none` models the `ValueError` raised on anything else. -/
def pyInt (s : List Char) : Option Int :=
  match pyStrip s with
  | '-' :: rest => (digitsVal rest).map (fun n => -(n : Int))
  | '+' :: rest => (digitsVal rest).map (fun n => (n : Int))
  | t => (digitsVal t).map (fun n => (n : Int))

/-- Test that `pat` occurs at the start of `l` (`re.search('^pat', line)`
on a single line, and the occurrence test of `bytes.find`). -/
def lineStarts (l pat : List Char) : Bool :=
  decide (l.take pat.length = pat)

/-- First index at which `pat` occurs as a contiguous sublist of `hay`,
scanning left to right; `none` when there is no occurrence. -/
def findSub {α : Type} [DecidableEq α] : List α → List α → Option Nat
  | [], pat => if pat = [] then some 0 else none
  | h :: t, pat =>
    if (h :: t).take pat.length = pat then some 0
    else (findSub t pat).map (· + 1)

/-- Python `hay.find(pat)`: first occurrence index, `-1` when absent. -/
def pyFind {α : Type} [DecidableEq α] (hay pat : List α) : Int :=
  match findSub hay pat with
  | some n => (n : Int)
  | none => -1

/-- Python slice upper bound `l[:i]` for an `Int` index: a negative `i`
counts from the end of the list. -/
def pyTakeTo {α : Type} (l : List α) (i : Int) : List α :=
  if i < 0 then l.take (((l.length : Int) + i).toNat) else l.take i.toNat

/-! ## BCD codec, embedded from `pop-fe.py:403-404` -/

/-- Embeds `bcd` (`pop-fe.py:403`): `int(i % 10) + 16 * (int(i / 10) % 10)`.
Python `%` on a positive modulus is `Int.emod`, and `int(i / 10)` truncates
the float quotient toward zero, which is `Int.tdiv` (the float is exact for
every magnitude the program produces).  The result is always in `[0, 153]`,
so it is returned as a byte value in `Nat`. -/
def bcd (i : Int) : Nat :=
  (i % 10 + 16 * (i.tdiv 10 % 10)).toNat

/-- Decoder from the spec's testable property:
`decode_bcd(b) = (b & 0xF) + 10 * (b >> 4)`. -/
def decode_bcd (b : Nat) : Nat :=
  (b &&& 0xF) + 10 * (b >>> 4)

/-! ## TOC synthesizer, embedded from `get_toc_from_cu2` (`pop-fe.py:402-448`)

A CU2 file is modelled as the list of its lines, each a `List Char`
(`f.readlines()`); whether a line carries its trailing newline is
irrelevant to every field the function slices out. -/

/-- Embeds `_toc_header` (`pop-fe.py:406-410`): the fixed 30-byte header
template with the three index entries `0xa0`, `0xa1`, `0xa2`. -/
def toc_header : List Nat :=
  [0x41, 0x00, 0xa0, 0x00, 0x00, 0x00, 0x00, 0x01, 0x20, 0x00,
   0x01, 0x00, 0xa1, 0x00, 0x00, 0x00, 0x00, 0x00, 0x00, 0x00,
   0x01, 0x00, 0xa2, 0x00, 0x00, 0x00, 0x00, 0x00, 0x00, 0x00]

/-- Embeds the `ntracks` scan (`pop-fe.py:420-422`): the last line starting
with `ntracks` sets `num_tracks = int(line[7:])`; the outer `Option` is the
`ValueError` a non-numeric field raises, the inner one is the initial
`None`. -/
def findNumTracks (lines : List (List Char)) : Option (Option Int) :=
  lines.foldlM
    (fun acc l =>
      if lineStarts l ("ntracks".toList) then (pyInt (l.drop 7)).map some
      else some acc)
    none

/-- Embeds the `trk end` scan (`pop-fe.py:423-424`): the last line starting
with `trk end` sets `trk_end = line[10:]`. -/
def findTrkEnd (lines : List (List Char)) : Option (List Char) :=
  lines.foldl
    (fun acc l => if lineStarts l ("trk end".toList) then some (l.drop 10) else acc)
    none

/-- Embeds the per-track line filter (`pop-fe.py:435`): a line is a track
line when it starts with `data` or with `track`. -/
def isTrackLine (l : List Char) : Bool :=
  lineStarts l ("data".toList) || lineStarts l ("track".toList)

/-- Embeds the MSF field extraction of a track line (`pop-fe.py:438-443`):
`msf = line[10:]`, fields `msf[:2]`, `msf[3:5]`, `msf[6:8]`. -/
def parseMSF (l : List Char) : Option (Int × Int × Int) := do
  let msf := l.drop 10
  let m ← pyInt (msf.take 2)
  let s ← pyInt ((msf.drop 3).take 2)
  let f ← pyInt ((msf.drop 6).take 2)
  pure (m, s, f)

/-- One emitted 10-byte track record (`pop-fe.py:432-443`).  The loop's
`buf` is created once, but every iteration overwrites exactly indices
0, 2, 7, 8, 9 and the rest stay at their initial zero, so the record is a
pure function of the track number and its MSF. -/
def mkRecord (t : Nat) (m s f : Int) : List Nat :=
  [if t = 1 then 0x41 else 0x01, 0, bcd t, 0, 0, 0, 0, bcd m, bcd s, bcd f]

/-- Embeds the track-record loop (`pop-fe.py:433-446`): state is the TOC
built so far and the 1-based track counter. -/
def trackLoop : List (List Char) → List Nat × Nat → Option (List Nat × Nat)
  | [], st => some st
  | l :: rest, st =>
    if isTrackLine l then do
      let (m, s, f) ← parseMSF l
      trackLoop rest (st.1 ++ mkRecord st.2 m s f, st.2 + 1)
    else trackLoop rest st

/-- Embeds `get_toc_from_cu2` (`pop-fe.py:402-448`).  `none` models every
exception path: missing or non-numeric `ntracks` (`bcd(None)` /
`int(...)`), missing or malformed `trk end`, malformed track MSF. -/
def get_toc_from_cu2 (lines : List (List Char)) : Option (List Nat) := do
  let ont ← findNumTracks lines
  let num_tracks ← ont
  let trk_end ← findTrkEnd lines
  let em ← pyInt (trk_end.take 2)
  let es ← pyInt ((trk_end.drop 3).take 2)
  let ef ← pyInt ((trk_end.drop 6).take 2)
  let toc0 :=
    (((toc_header.set 17 (bcd num_tracks)).set 27 (bcd em)).set 28 (bcd es)).set 29 (bcd ef)
  let st ← trackLoop lines (toc0, 1)
  pure st.1

/-- Parsed end-of-disc MSF: `trk_end` found and its three fields numeric. -/
def parsedTrkEnd (lines : List (List Char)) : Option (Int × Int × Int) := do
  let te ← findTrkEnd lines
  let m ← pyInt (te.take 2)
  let s ← pyInt ((te.drop 3).take 2)
  let f ← pyInt ((te.drop 6).take 2)
  pure (m, s, f)

/-- Parsed start MSFs of the track lines, in file order. -/
def parsedTrackMSFs : List (List Char) → Option (List (Int × Int × Int))
  | [] => some []
  | l :: rest =>
    if isTrackLine l then do
      let x ← parseMSF l
      let xs ← parsedTrackMSFs rest
      pure (x :: xs)
    else parsedTrackMSFs rest

/-- Records emitted for the MSF list `xs` with first track number `t`. -/
def trackRecords (t : Nat) : List (Int × Int × Int) → List (List Nat)
  | [] => []
  | (m, s, f) :: xs => mkRecord t m s f :: trackRecords (t + 1) xs

/-- Number of per-track (`data`/`track`) lines of a CU2 file. -/
def countTrackLines (lines : List (List Char)) : Nat :=
  (lines.filter isTrackLine).length

/-- Contiguous slice `l[off : off + len]` of a byte list. -/
def byteSlice (l : List Nat) (off len : Nat) : List Nat :=
  (l.drop off).take len

/-- Concrete CU2 from the spec's end-to-end property: `ntracks=1`,
`trk end 01:02:03`, one `track` line at `00:00:00`. -/
def cu2Example : List (List Char) :=
  ["ntracks 1".toList, "trk end   01:02:03".toList, "track1    00:00:00".toList]

/-- TOC the program builds for `cu2Example`: the 30-byte header with
`bcd 1` at index 17 and `01:02:03` in BCD at indices 27-29, followed by one
10-byte record for track 1 starting at `00:00:00`. -/
def tocExample : List Nat :=
  [0x41, 0x00, 0xa0, 0x00, 0x00, 0x00, 0x00, 0x01, 0x20, 0x00,
   0x01, 0x00, 0xa1, 0x00, 0x00, 0x00, 0x00, 0x01, 0x00, 0x00,
   0x01, 0x00, 0xa2, 0x00, 0x00, 0x00, 0x00, 0x01, 0x02, 0x03,
   0x41, 0x00, 0x01, 0x00, 0x00, 0x00, 0x00, 0x00, 0x00, 0x00]

/-! ## Libcrypt magic word, embedded from `generate_magic_word`
(`pop-fe.py:152-207`)

The HTTP fetch (`pop-fe.py:155-158`) is outside the embedding: the
function here receives the decoded report text `b` and performs the pure
scan of `pop-fe.py:161-207`. -/

/-- Section header searched for at `pop-fe.py:161`. -/
def lcHeader : List Char := "Sectors with LibCrypt protection".toList

/-- Embeds the section slicing (`pop-fe.py:165-167`): `b = b[idx:]` from
the header, then `b = b[:b.find('table')]` (Python semantics: when `table`
is absent the `-1` index drops the final character). -/
def lcSection (b : List Char) : List Char :=
  let b1 := b.drop (pyFind b lcHeader).toNat
  pyTakeTo b1 (pyFind b1 ("table".toList))

/-- The 16 probed marker pairs with their masks, in program order
(`pop-fe.py:170-204`).  The fifteenth alternate string reproduces the
source's literal `<td>16106/td>` (`pop-fe.py:201`), missing its `<`. -/
def lcMarkers : List (String × String × Nat) :=
  [("<td>14105</td>", "<td>14110</td>", 0x8000),
   ("<td>14231</td>", "<td>14236</td>", 0x4000),
   ("<td>14485</td>", "<td>14490</td>", 0x2000),
   ("<td>14579</td>", "<td>14584</td>", 0x1000),
   ("<td>14649</td>", "<td>14654</td>", 0x0800),
   ("<td>14899</td>", "<td>14904</td>", 0x0400),
   ("<td>15056</td>", "<td>15061</td>", 0x0200),
   ("<td>15130</td>", "<td>15135</td>", 0x0100),
   ("<td>15242</td>", "<td>15247</td>", 0x0080),
   ("<td>15312</td>", "<td>15317</td>", 0x0040),
   ("<td>15378</td>", "<td>15383</td>", 0x0020),
   ("<td>15628</td>", "<td>15633</td>", 0x0010),
   ("<td>15919</td>", "<td>15924</td>", 0x0008),
   ("<td>16031</td>", "<td>16036</td>", 0x0004),
   ("<td>16101</td>", "<td>16106/td>", 0x0002),
   ("<td>16167</td>", "<td>16172</td>", 0x0001)]

/-- One probe step (`pop-fe.py:170-171` and the 15 analogous pairs):
`if b.find(m1) > 0 or b.find(m2) > 0: mw = mw | mask`. -/
def mwStep (s : List Char) (mw : Nat) (m1 m2 : String) (mask : Nat) : Nat :=
  if 0 < pyFind s m1.toList ∨ 0 < pyFind s m2.toList then mw ||| mask else mw

/-- The 16 sequential probe steps of `pop-fe.py:169-204`, in order. -/
def mwAccum (s : List Char) : Nat :=
  lcMarkers.foldl (fun mw p => mwStep s mw p.1 p.2.1 p.2.2) 0

/-- Embeds `generate_magic_word` (`pop-fe.py:152-207`) on the decoded
report text: return `0` when the header is missing (`pop-fe.py:162-164`),
otherwise probe the sliced section. -/
def generate_magic_word (b : List Char) : Nat :=
  if pyFind b lcHeader = -1 then 0 else mwAccum (lcSection b)

/-- Concrete report whose protection section contains only the marker
`<td>14105</td>` (the section ends at the following `table` token). -/
def lcReportExample : List Char :=
  "Sectors with LibCrypt protection<td>14105</td>table".toList

/-! ## Memory-card classifier, embedded from `check_memory_card`
(`pop-fe.py:834-852`) -/

/-- Embeds `check_memory_card` (`pop-fe.py:834-852`) with the dump file as
a byte list.  The size tests are in source order; each recognized size
seeks to its header-skip offset and reads one raw 131072-byte image (two
consecutive reads in the 262144 case).  Any other size falls off the end
of the function: the Python `None` return, the function's failure result,
is `none`. -/
def check_memory_card (buf : List Nat) : Option (List (List Nat)) :=
  if buf.length = 131072 then some [buf.take 131072]
  else if buf.length = 131200 then some [(buf.drop 0x80).take 131072]
  else if buf.length = 131136 then some [(buf.drop 0x40).take 131072]
  else if buf.length = 262144 then
    some [buf.take 131072, (buf.drop 131072).take 131072]
  else if buf.length = 134976 then some [(buf.drop 0xf40).take 131072]
  else none

/-- Embeds the memory-card collection step of the main loop
(`pop-fe.py:1248-1255`): every input of size at most 262144 is probed with
`check_memory_card`; a truthy result (`if mc:`, so neither `None` nor an
empty list) contributes its images, any other input flows on to
disc-image processing.  Returns the collected card images and the inputs
left for disc processing, both in input order. -/
def collect_inputs : List (List Nat) → List (List Nat) × List (List Nat)
  | [] => ([], [])
  | f :: rest =>
    let r := collect_inputs rest
    if f.length ≤ 262144 then
      match check_memory_card f with
      | some mc => if mc.isEmpty then (r.1, f :: r.2) else (mc ++ r.1, r.2)
      | none => (r.1, f :: r.2)
    else (r.1, f :: r.2)

/-! ## Blank memory card, embedded from `create_blank_mc`
(`pop-fe.py:877-914`)

The output file is modelled as a byte store: a size and a contents
function.  A write at an offset past the current size extends the file,
and the skipped region reads back as zero, matching sparse-file
semantics of `f.seek(off); f.write(...)` on the freshly created file. -/

/-- File contents as a total byte function plus the current size. -/
structure ByteStore where
  size : Nat
  byteAt : Nat → Nat

/-- One `f.seek(off)` followed by `f.write(data)`. -/
def storeWrite (st : ByteStore) (off : Nat) (data : List Nat) : ByteStore :=
  { size := max st.size (off + data.length),
    byteAt := fun i =>
      if off ≤ i ∧ i < off + data.length then data.getD (i - off) 0
      else st.byteAt i }

/-- Python `range(start, stop, step)` for a positive step. -/
def pyRange (start stop step : Nat) : List Nat :=
  (List.range ((stop - start + step - 1) / step)).map (fun i => start + step * i)

/-- Directory record written at 0x70 (`pop-fe.py:888-893`). -/
def mcPattern1 : List Nat :=
  [0x00, 0x00, 0x00, 0x00, 0x00, 0x00, 0x00, 0x00,
   0x00, 0x00, 0x00, 0x00, 0x00, 0x00, 0x00, 0x0e,
   0xa0, 0x00, 0x00, 0x00, 0x00, 0x00, 0x00, 0x00,
   0xff, 0xff, 0x00, 0x00, 0x00, 0x00, 0x00, 0x00]

/-- Directory record repeated at 0xf0..0x770 (`pop-fe.py:895-901`). -/
def mcPattern2 : List Nat :=
  [0x00, 0x00, 0x00, 0x00, 0x00, 0x00, 0x00, 0x00,
   0x00, 0x00, 0x00, 0x00, 0x00, 0x00, 0x00, 0xa0,
   0xa0, 0x00, 0x00, 0x00, 0x00, 0x00, 0x00, 0x00,
   0xff, 0xff, 0x00, 0x00, 0x00, 0x00, 0x00, 0x00]

/-- Boundary record written at 0x7f0 (`pop-fe.py:903-908`). -/
def mcPattern3 : List Nat :=
  [0x00, 0x00, 0x00, 0x00, 0x00, 0x00, 0x00, 0x00,
   0x00, 0x00, 0x00, 0x00, 0x00, 0x00, 0x00, 0xa0,
   0xff, 0xff, 0xff, 0xff, 0x00, 0x00, 0x00, 0x00,
   0xff, 0xff, 0x00, 0x00, 0x00, 0x00, 0x00, 0x00]

/-- Sixteen-byte record repeated at 0x880..0x1180 (`pop-fe.py:910-914`). -/
def mcPattern4 : List Nat :=
  [0xff, 0xff, 0xff, 0xff, 0x00, 0x00, 0x00, 0x00,
   0xff, 0xff, 0x00, 0x00, 0x00, 0x00, 0x00, 0x00]

/-- Embeds `create_blank_mc` (`pop-fe.py:877-914`): on the empty file
(`"wb"`), write one zero byte (`bytes(1)`) at offset 131071, the two-byte
`MC` magic at 0, `mcPattern1` at 0x70, `mcPattern2` at
`range(0xf0, 0x780, 0x80)`, `mcPattern3` at 0x7f0, and `mcPattern4` at
`range(0x880, 0x1190, 0x80)`. -/
def create_blank_mc : ByteStore :=
  let st := storeWrite ⟨0, fun _ => 0⟩ 131071 [0]
  let st := storeWrite st 0 [0x4d, 0x43]
  let st := storeWrite st 0x70 mcPattern1
  let st := (pyRange 0xf0 0x780 0x80).foldl (fun s i => storeWrite s i mcPattern2) st
  let st := storeWrite st 0x7f0 mcPattern3
  (pyRange 0x880 0x1190 0x80).foldl (fun s i => storeWrite s i mcPattern4) st

/-! ## Automatic libcrypt patch, embedded from `apply_ppf`
(`pop-fe.py:1015-1032`)

The auto mode reads the image in 0x9300-byte chunks (`f.read(0x9300)`),
patches at most one signature hit per chunk in place, and writes the
chunk back, so the whole pass is the concatenation of a per-window
function over the non-overlapping windows.  The recursion is driven by a
fuel argument (the image length) so that every definition evaluates by
kernel reduction. -/

/-- The fixed 4-byte libcrypt signature (`pop-fe.py:1025`). -/
def libcryptSig : List Nat := [0x25, 0x30, 0x86, 0x00]

/-- One loop iteration on the window just read (`pop-fe.py:1025-1031`):
find the signature; when the in-window offset is strictly positive
(`if pos > 0`), pack the little-endian `magic_word` over the two bytes at
the offset and the little-endian constant 0x34c6 over the next two
(`struct.pack_into('<H', ...)`; the caller's magic word fits 16 bits, and
the byte split is written with `%` so the function stays total). -/
def patchWindow (buf : List Nat) (magic_word : Nat) : List Nat :=
  let pos := pyFind buf libcryptSig
  if 0 < pos then
    let p := pos.toNat
    (((buf.set p (magic_word % 256)).set (p + 1) (magic_word / 256 % 256)).set
      (p + 2) 0xc6).set (p + 3) 0x34
  else buf

/-- Fuel-driven window loop of `pop-fe.py:1020-1031`: read a 0x9300-byte
window, stop on empty, patch, continue after it. -/
def autoPatchF : Nat → List Nat → Nat → List Nat
  | 0, _, _ => []
  | fuel + 1, img, mw =>
    if img = [] then []
    else patchWindow (img.take 0x9300) mw ++ autoPatchF fuel (img.drop 0x9300) mw

/-- Embeds the automatic libcrypt mode of `apply_ppf`
(`pop-fe.py:1016-1032`): the patched image contents. -/
def apply_ppf_auto (img : List Nat) (magic_word : Nat) : List Nat :=
  autoPatchF img.length img magic_word

/-- Fuel-driven chunking into the 0x9300-byte scan windows. -/
def chunksF : Nat → List Nat → List (List Nat)
  | 0, _ => []
  | fuel + 1, img =>
    if img = [] then [] else img.take 0x9300 :: chunksF fuel (img.drop 0x9300)

/-- The non-overlapping 0x9300-byte scan windows of an image. -/
def chunksOf (img : List Nat) : List (List Nat) := chunksF img.length img

/-! ## Table-driven libcrypt patch, embedded from `apply_ppf`
(`pop-fe.py:1033-1058`)

The branch structure lives in `pop-fe.py`.  The libcrypt registry
(`gamedb.py`) and the PPF applicator `ApplyPPF` (`ppf.py`) are repository
code outside `src/`, and the network GET and zip extraction are effects,
so they enter the embedding as a registry-entry argument, a spec-modelled
patch applicator, and two function parameters. -/

/-- One registry row of the libcrypt table, mirroring the dict keys the
code tests (`pop-fe.py:1033-1045`): an optional credit line, an optional
registered literal patch set, and an optional (archive url, member name)
reference. -/
structure LibcryptEntry where
  credit : Option String := none
  ppf : Option (List (Nat × List Nat)) := none
  ppfzip : Option (String × String) := none

/-- Raw byte overwrite at an offset (a no-op outside the image bounds). -/
def overwriteBytes (buf : List Nat) (off : Nat) (data : List Nat) : List Nat :=
  (List.range data.length).foldl (fun b j => b.set (off + j) (data.getD j 0)) buf

/-- Modelled from the spec: `ApplyPPF` (`ppf.py`, not under `src/`)
applies a PatchSet to the image, every PatchRecord a raw byte overwrite
at its offset, in order. -/
def applyPatchSet (img : List Nat) (ps : List (Nat × List Nat)) : List Nat :=
  ps.foldl (fun b r => overwriteBytes b r.1 r.2) img

/-- Embeds the table mode of `apply_ppf` (`pop-fe.py:1033-1058`).
`fetch` maps a url to the GET's status code and body, `extract` maps an
archive body and member name to the contained patch set, and `entry` is
the registry row for the disc id (`none` models the `KeyError` a missing
row raises at `pop-fe.py:1033`).  The result is the final image plus
whether the no-patch warning was emitted; the `credit` print
(`pop-fe.py:1033-1034`) affects neither. -/
def apply_ppf_table (fetch : String → Nat × List Nat)
    (extract : List Nat → String → List (Nat × List Nat))
    (entry : Option LibcryptEntry) (img : List Nat) :
    Option (List Nat × Bool) :=
  match entry with
  | none => none
  | some e =>
    match e.ppf with
    | some ps => some (applyPatchSet img ps, false)
    | none =>
      match e.ppfzip with
      | none => some (img, true)
      | some (url, member) =>
        let r := fetch url
        if r.1 ≠ 200 then some (img, true)
        else some (applyPatchSet img (extract r.2 member), false)

/-! ## Theorems -/

/-- Closed form of the track-record loop: it succeeds exactly when every
track line's MSF parses, and then appends the records for the parsed MSFs
in file order, advancing the track counter once per track line. -/
theorem trackLoop_eq (ls : List (List Char)) (buf : List Nat) (t : Nat) :
    trackLoop ls (buf, t) =
      (parsedTrackMSFs ls).map
        (fun xs => (buf ++ (trackRecords t xs).flatten, t + xs.length)) := by
  induction ls generalizing buf t with
  | nil => simp [trackLoop, parsedTrackMSFs, trackRecords]
  | cons l rest ih =>
    by_cases h : isTrackLine l
    · cases hp : parseMSF l with
      | none => simp [trackLoop, parsedTrackMSFs, h, hp]
      | some msf =>
        obtain ⟨m, s, f⟩ := msf
        cases hr : parsedTrackMSFs rest with
        | none => simp [trackLoop, parsedTrackMSFs, h, hp, hr, ih]
        | some xs =>
          simp [trackLoop, parsedTrackMSFs, h, hp, hr, ih, trackRecords,
            List.append_assoc]
          omega
    · simp [trackLoop, parsedTrackMSFs, h, ih]

/-- Each emitted record is 10 bytes, so the records for `xs` are
`10 * xs.length` bytes in all. -/
theorem trackRecords_join_length (t : Nat) (xs : List (Int × Int × Int)) :
    ((trackRecords t xs).flatten).length = 10 * xs.length := by
  induction xs generalizing t with
  | nil => simp [trackRecords]
  | cons x xs ih =>
    obtain ⟨m, s, f⟩ := x
    simp [trackRecords, mkRecord, ih]
    omega

/-- Successful MSF parsing yields one entry per track line. -/
theorem parsedTrackMSFs_length (ls : List (List Char))
    (xs : List (Int × Int × Int)) (h : parsedTrackMSFs ls = some xs) :
    xs.length = countTrackLines ls := by
  induction ls generalizing xs with
  | nil =>
    simp [parsedTrackMSFs] at h
    simp [← h, countTrackLines]
  | cons l rest ih =>
    by_cases hl : isTrackLine l
    · simp only [parsedTrackMSFs, hl, if_true] at h
      rcases hm : parseMSF l with _ | msf <;> rw [hm] at h
      · simp at h
      · rcases hr : parsedTrackMSFs rest with _ | ys <;> rw [hr] at h
        · simp at h
        · simp at h
          subst h
          simp [countTrackLines, List.filter, hl, ih ys hr]
    · simp only [parsedTrackMSFs, hl, if_false] at h
      simp [countTrackLines, List.filter, hl]
      simpa [countTrackLines] using ih xs h


/-- C2: for every integer `i` in `[0, 99]`, `bcd i` is the byte
`(i mod 10) ||| ((i div 10 mod 10) <<< 4)`, and decoding recovers `i`:
`decode_bcd (bcd i) = i`. -/
theorem bcd_bits_and_round_trip (i : Nat) (h : i ≤ 99) :
    bcd i = ((i % 10) ||| ((i / 10 % 10) <<< 4)) ∧ decode_bcd (bcd i) = i := by
  have all : ∀ j : Nat, j < 100 →
      bcd j = ((j % 10) ||| ((j / 10 % 10) <<< 4)) ∧ decode_bcd (bcd j) = j := by
    decide
  exact all i (by omega)

/-- Witness for C2 at `i = 42`. -/
theorem bcd_bits_and_round_trip_witness :
    bcd 42 = ((42 % 10) ||| ((42 / 10 % 10) <<< 4)) ∧ decode_bcd (bcd 42) = 42 :=
  bcd_bits_and_round_trip 42 (by decide)

/-- Structure of every successfully built TOC: the patched header followed
by the flattened track records, with all the parse steps that the success
forces. -/
theorem get_toc_structure (lines : List (List Char)) (toc : List Nat)
    (h : get_toc_from_cu2 lines = some toc) :
    ∃ (N : Int) (te : List Char) (m s f : Int) (xs : List (Int × Int × Int)),
      findNumTracks lines = some (some N) ∧
      findTrkEnd lines = some te ∧
      pyInt (te.take 2) = some m ∧
      pyInt ((te.drop 3).take 2) = some s ∧
      pyInt ((te.drop 6).take 2) = some f ∧
      parsedTrackMSFs lines = some xs ∧
      toc = (((toc_header.set 17 (bcd N)).set 27 (bcd m)).set 28 (bcd s)).set 29 (bcd f)
              ++ (trackRecords 1 xs).flatten := by
  unfold get_toc_from_cu2 at h
  simp only [bind, Option.bind_eq_some, Option.pure_def, Option.some.injEq] at h
  obtain ⟨ont, h1, N, h2, te, h3, m, h4, s, h5, f, h6, st, h7, h8⟩ := h
  rw [trackLoop_eq, Option.map_eq_some'] at h7
  obtain ⟨xs, hxs, hst⟩ := h7
  refine ⟨N, te, m, s, f, xs, by rw [h1, h2], h3, h4, h5, h6, hxs, ?_⟩
  rw [← h8, ← hst]

/-- C1: a well-formed CU2 declaring `ntracks = N` (`N ≥ 1`) with `N`
per-track lines yields a TOC of length exactly `30 + 10·N` whose byte 17
is `bcd N` and whose header bytes 27, 28, 29 are the BCD encodings of the
end-of-disc minutes, seconds and frames. -/
theorem cu2_toc_length_and_header (lines : List (List Char)) (N : Int)
    (toc : List Nat) (m s f : Int)
    (hN : 1 ≤ N)
    (hnt : findNumTracks lines = some (some N))
    (hcnt : countTrackLines lines = N.toNat)
    (hte : parsedTrkEnd lines = some (m, s, f))
    (h : get_toc_from_cu2 lines = some toc) :
    toc.length = 30 + 10 * N.toNat ∧
    toc[17]? = some (bcd N) ∧
    toc[27]? = some (bcd m) ∧ toc[28]? = some (bcd s) ∧ toc[29]? = some (bcd f) := by
  obtain ⟨N', te, m', s', f', xs, hnt', hte', hm', hs', hf', hxs, htoc⟩ :=
    get_toc_structure lines toc h
  have hNN : N' = N := by rw [hnt] at hnt'; simpa using hnt'.symm
  subst hNN
  have hmsf : m' = m ∧ s' = s ∧ f' = f := by
    unfold parsedTrkEnd at hte
    rw [hte'] at hte
    simp only [bind, Option.some_bind, hm', hs', hf', Option.pure_def,
      Option.some.injEq, Prod.mk.injEq] at hte
    exact hte
  obtain ⟨rfl, rfl, rfl⟩ := hmsf
  have hhead : ((((toc_header.set 17 (bcd N')).set 27 (bcd m')).set 28
      (bcd s')).set 29 (bcd f')).length = 30 := by
    simp [toc_header]
  have hxlen : xs.length = N'.toNat := by
    rw [parsedTrackMSFs_length lines xs hxs, hcnt]
  subst htoc
  refine ⟨?_, ?_, ?_, ?_, ?_⟩
  · rw [List.length_append, hhead, trackRecords_join_length, hxlen]
  all_goals
    rw [List.getElem?_append_left (by rw [hhead]; omega)]
    simp [List.getElem?_set, toc_header]

/-- Witness for C1 at the spec's end-to-end example: `ntracks=1`,
`trk end 01:02:03`, one track at `00:00:00` gives the 40-byte `tocExample`
whose lead-out MSF bytes decode to `(1, 2, 3)`. -/
theorem cu2_toc_length_and_header_witness :
    get_toc_from_cu2 cu2Example = some tocExample ∧
    tocExample.length = 30 + 10 * (1 : Int).toNat ∧
    tocExample[17]? = some (bcd 1) ∧
    tocExample[27]? = some (bcd 1) ∧ tocExample[28]? = some (bcd 2) ∧
    tocExample[29]? = some (bcd 3) ∧
    decode_bcd 1 = 1 ∧ decode_bcd 2 = 2 ∧ decode_bcd 3 = 3 := by
  have hg : get_toc_from_cu2 cu2Example = some tocExample := by decide
  have h := cu2_toc_length_and_header cu2Example 1 tocExample 1 2 3
    (by decide) (by decide) (by decide) (by decide) hg
  exact ⟨hg, h.1, h.2.1, h.2.2.1, h.2.2.2.1, h.2.2.2.2, by decide, by decide,
    by decide⟩

/-- Position of each emitted record inside the flattened record area: the
record for the `j`-th parsed MSF starts `10·j` bytes in and is
`mkRecord (t + j)` of that MSF. -/
theorem trackRecords_flatten_slice (xs : List (Int × Int × Int)) (t j : Nat)
    (m s f : Int) (hj : xs[j]? = some (m, s, f)) :
    byteSlice ((trackRecords t xs).flatten) (10 * j) 10 = mkRecord (t + j) m s f := by
  induction xs generalizing t j with
  | nil => simp at hj
  | cons x ys ih =>
    obtain ⟨m0, s0, f0⟩ := x
    cases j with
    | zero =>
      simp only [List.getElem?_cons_zero, Option.some.injEq] at hj
      obtain ⟨rfl, rfl, rfl⟩ := hj.symm
      simp [byteSlice, trackRecords, mkRecord]
    | succ j =>
      simp only [List.getElem?_cons_succ] at hj
      show byteSlice (mkRecord t m0 s0 f0 ++ (trackRecords (t + 1) ys).flatten)
        (10 * (j + 1)) 10 = _
      unfold byteSlice
      have h10 : 10 * (j + 1) = (mkRecord t m0 s0 f0).length + 10 * j := by
        simp [mkRecord]; omega
      rw [h10, List.drop_append]
      have hrec : t + (j + 1) = (t + 1) + j := by omega
      rw [hrec]
      exact ih (t + 1) j hj

/-- C3 as stated is false on the code: in the emitted record the byte
immediately after the control-flag byte is a reserved zero, not the BCD
track number; the track number sits at record offset 2, and the record has
no trailing reserved byte after the MSF (the BCD MSF occupies the final
three bytes, preceded by four reserved zeros).  Concretely, for the track-1
record of `cu2Example` (TOC bytes 30-39), byte 31 is `0`, not
`bcd 1 = 1`, and byte 32 carries the track number. -/
theorem cu2_track_record_layout_counterexample :
    get_toc_from_cu2 cu2Example = some tocExample ∧
    tocExample[31]? = some 0 ∧ ¬ tocExample[31]? = some (bcd 1) ∧
    tocExample[32]? = some (bcd 1) ∧
    byteSlice tocExample 30 10 = [0x41, 0, 1, 0, 0, 0, 0, 0, 0, 0] := by
  decide

/-- C3 amended: each emitted 10-byte record consists of the control-flag
byte (`0x41` for track 1, `0x01` for every later track), one reserved zero
byte, the track number in BCD, four reserved zero bytes, and the
BCD-encoded start MSF in the final three bytes. -/
theorem cu2_track_record_layout (lines : List (List Char)) (toc : List Nat)
    (xs : List (Int × Int × Int)) (j : Nat) (m s f : Int)
    (h : get_toc_from_cu2 lines = some toc)
    (hxs : parsedTrackMSFs lines = some xs)
    (hj : xs[j]? = some (m, s, f)) :
    byteSlice toc (30 + 10 * j) 10 =
      [if j = 0 then 0x41 else 0x01, 0, bcd (1 + (j : Int)), 0, 0, 0, 0,
       bcd m, bcd s, bcd f] := by
  obtain ⟨N, te, em, es, ef, xs', hnt, hte, hm, hs, hf, hxs', htoc⟩ :=
    get_toc_structure lines toc h
  have hx : xs = xs' := by rw [hxs] at hxs'; simpa using hxs'
  subst hx
  have hhead : ((((toc_header.set 17 (bcd N)).set 27 (bcd em)).set 28
      (bcd es)).set 29 (bcd ef)).length = 30 := by
    simp [toc_header]
  subst htoc
  unfold byteSlice
  have hsplit : 30 + 10 * j = ((((toc_header.set 17 (bcd N)).set 27
      (bcd em)).set 28 (bcd es)).set 29 (bcd ef)).length + 10 * j := by
    rw [hhead]
  rw [hsplit, List.drop_append]
  have := trackRecords_flatten_slice xs 1 j m s f hj
  unfold byteSlice at this
  rw [this, mkRecord]
  have h1 : (if 1 + j = 1 then (0x41 : Nat) else 0x01) =
      if j = 0 then 0x41 else 0x01 := by
    by_cases hz : j = 0 <;> simp [hz]
  have h2 : ((1 + j : Nat) : Int) = 1 + (j : Int) := by push_cast; ring
  rw [h1, h2]

/-- Witness for the amended C3 at `cu2Example`, track 1. -/
theorem cu2_track_record_layout_witness :
    byteSlice tocExample 30 10 =
      [0x41, 0, bcd (1 + ((0 : Nat) : Int)), 0, 0, 0, 0, bcd 0, bcd 0, bcd 0] := by
  have h := cu2_track_record_layout cu2Example tocExample [(0, 0, 0)] 0 0 0 0
    (by decide) (by decide) (by decide)
  simpa using h

/-- Soundness of `findSub`: a returned index is an occurrence. -/
theorem findSub_sound {α : Type} [DecidableEq α] (hay pat : List α) (p : Nat)
    (h : findSub hay pat = some p) : (hay.drop p).take pat.length = pat := by
  induction hay generalizing p with
  | nil =>
    unfold findSub at h
    by_cases hp : pat = []
    · simp only [hp, if_true] at h
      obtain rfl : p = 0 := by simpa using h.symm
      simp [hp]
    · simp [hp] at h
  | cons x t ih =>
    unfold findSub at h
    by_cases hx : (x :: t).take pat.length = pat
    · rw [if_pos hx] at h
      obtain rfl : p = 0 := by simpa using h.symm
      simpa using hx
    · rw [if_neg hx, Option.map_eq_some'] at h
      obtain ⟨q, hq, rfl⟩ := h
      simpa using ih q hq

/-- Minimality of `findSub`: any occurrence bounds the returned index. -/
theorem findSub_min {α : Type} [DecidableEq α] (hay pat : List α) (q : Nat)
    (h : (hay.drop q).take pat.length = pat) :
    ∃ p, findSub hay pat = some p ∧ p ≤ q := by
  induction hay generalizing q with
  | nil =>
    have hp : pat = [] := by simpa using h.symm
    exact ⟨0, by simp [findSub, hp], Nat.zero_le q⟩
  | cons x t ih =>
    by_cases hx : (x :: t).take pat.length = pat
    · exact ⟨0, by simp [findSub, hx], Nat.zero_le q⟩
    · cases q with
      | zero => simp only [List.drop_zero] at h; exact absurd h hx
      | succ q =>
        obtain ⟨p, hp, hpq⟩ := ih q (by simpa using h)
        refine ⟨p + 1, ?_, by omega⟩
        simp [findSub, hx, hp]

/-- Head of a list with a nonempty take-image. -/
theorem take_eq_head {α : Type} (l : List α) (n : Nat) (mk : List α)
    (h : l.take n = mk) (hne : mk ≠ []) : l[0]? = mk[0]? := by
  cases mk with
  | nil => exact absurd rfl hne
  | cons c tl =>
    cases l with
    | nil => simp at h
    | cons x xs =>
      cases n with
      | zero => simp at h
      | succ n =>
        simp only [List.take_succ_cons, List.cons.injEq] at h
        simp [h.1]

/-- Any element of `pyTakeTo l i` at position 0 is the head of `l`. -/
theorem pyTakeTo_head {α : Type} (l : List α) (i : Int) (c : α)
    (h : (pyTakeTo l i)[0]? = some c) : l[0]? = some c := by
  unfold pyTakeTo at h
  split at h <;>
  · rw [List.getElem?_take] at h
    split at h
    · exact h
    · simp at h

/-- Inside a report containing the libcrypt header, no marker that does
not begin with `S` can occur at position 0 of the sliced section, because
the section begins with the header text itself. -/
theorem lcSection_no_zero_hit (b : List Char) (i : Nat)
    (hb : findSub b lcHeader = some i) (mk : List Char)
    (hmk : mk[0]? ≠ some 'S') (hne : mk ≠ []) :
    findSub (lcSection b) mk ≠ some 0 := by
  intro h0
  have hocc := findSub_sound _ _ _ h0
  simp only [List.drop_zero] at hocc
  have h1 : (lcSection b)[0]? = mk[0]? := take_eq_head _ _ _ hocc hne
  obtain ⟨c, hc⟩ : ∃ c, mk[0]? = some c := by
    cases mk with
    | nil => exact absurd rfl hne
    | cons c tl => exact ⟨c, by simp⟩
  have hj : (pyFind b lcHeader).toNat = i := by simp [pyFind, hb]
  have h2 : (b.drop i)[0]? = some c := by
    apply pyTakeTo_head (b.drop i) (pyFind (b.drop i) ("table".toList))
    have : lcSection b = pyTakeTo (b.drop i) (pyFind (b.drop i) ("table".toList)) := by
      simp only [lcSection, hj]
    rw [← this, h1, hc]
  have hs : (b.drop i).take lcHeader.length = lcHeader := findSub_sound _ _ _ hb
  have hS : (b.drop i)[0]? = lcHeader[0]? :=
    take_eq_head _ _ _ hs (by decide)
  rw [h2, show lcHeader[0]? = some 'S' from by decide] at hS
  have : c = 'S' := by simpa using hS
  rw [hc, this] at hmk
  exact hmk rfl

/-- The strictly-positive `find` test of the source agrees with plain
occurrence whenever position 0 is excluded. -/
theorem decide_pos_find_eq_isSome (s mk : List Char)
    (hne : findSub s mk ≠ some 0) :
    decide (0 < pyFind s mk) = (findSub s mk).isSome := by
  cases h : findSub s mk with
  | none => simp [pyFind, h]
  | some p =>
    have hp : p ≠ 0 := fun h0 => hne (by rw [h, h0])
    simp [pyFind, h, Int.natCast_pos, Nat.pos_of_ne_zero hp]

/-- Bit view of one probe step. -/
theorem mwStep_testBit (s : List Char) (mw : Nat) (m1 m2 : String)
    (mask : Nat) (i : Nat) :
    (mwStep s mw m1 m2 mask).testBit i =
      (mw.testBit i ||
        (decide (0 < pyFind s m1.toList ∨ 0 < pyFind s m2.toList) &&
          mask.testBit i)) := by
  unfold mwStep
  by_cases h : 0 < pyFind s m1.toList ∨ 0 < pyFind s m2.toList
  · rw [if_pos h, decide_eq_true h]
    simp [Nat.testBit_or]
  · rw [if_neg h, decide_eq_false h]
    simp

/-- Bit view of the whole probe chain. -/
theorem mwFold_testBit (s : List Char) (ps : List (String × String × Nat))
    (mw0 : Nat) (i : Nat) :
    (ps.foldl (fun mw p => mwStep s mw p.1 p.2.1 p.2.2) mw0).testBit i =
      (mw0.testBit i ||
        ps.any (fun p =>
          decide (0 < pyFind s p.1.toList ∨ 0 < pyFind s p.2.1.toList) &&
            p.2.2.testBit i)) := by
  induction ps generalizing mw0 with
  | nil => simp
  | cons p ps ih =>
    obtain ⟨m1, m2, mask⟩ := p
    simp only [List.foldl_cons, List.any_cons, ih, mwStep_testBit]
    cases hmw : mw0.testBit i <;> simp [Bool.or_assoc]

/-- C5: the magic-word derivation probes the 16 fixed marker pairs and
sets bit `15 − k` exactly when either string of pair `k` occurs in the
report's protection section; a report whose section contains only the
marker `<td>14105</td>` yields `0x8000`; a report without the
`Sectors with LibCrypt protection` header yields `0`. -/
theorem generate_magic_word_spec :
    (∀ b : List Char, pyFind b lcHeader = -1 → generate_magic_word b = 0) ∧
    generate_magic_word lcReportExample = 0x8000 ∧
    (∀ b : List Char, pyFind b lcHeader ≠ -1 →
      ∀ (k : Nat) (m1 m2 : String) (mask : Nat), k < 16 →
      lcMarkers[k]? = some (m1, m2, mask) →
      (generate_magic_word b).testBit (15 - k) =
        ((findSub (lcSection b) m1.toList).isSome ||
         (findSub (lcSection b) m2.toList).isSome)) := by
  refine ⟨?_, ?_, ?_⟩
  · intro b hb
    unfold generate_magic_word
    rw [if_pos hb]
  · decide
  · intro b hb k m1 m2 mask hk hmk
    obtain ⟨i, hi⟩ : ∃ i, findSub b lcHeader = some i := by
      cases h : findSub b lcHeader with
      | none => exact absurd (by simp [pyFind, h]) hb
      | some j => exact ⟨j, rfl⟩
    have hgen : generate_magic_word b = mwAccum (lcSection b) := by
      unfold generate_magic_word
      rw [if_neg hb]
    interval_cases k
    all_goals
      simp only [lcMarkers, List.getElem?_cons_zero, List.getElem?_cons_succ,
        Option.some.injEq, Prod.mk.injEq] at hmk
      obtain ⟨rfl, rfl, rfl⟩ := hmk
      rw [hgen, mwAccum, mwFold_testBit]
      simp only [lcMarkers, List.any_cons, List.any_nil]
      simp [Nat.testBit]
      rw [decide_pos_find_eq_isSome _ _
          (lcSection_no_zero_hit b i hi _ (by decide) (by decide)),
        decide_pos_find_eq_isSome _ _
          (lcSection_no_zero_hit b i hi _ (by decide) (by decide))]

/-- Witness for C5: the header-free report yields 0, and bit 15 for the
`lcReportExample` report equals the presence of the pair-0 markers. -/
theorem generate_magic_word_spec_witness :
    generate_magic_word ("plain text".toList) = 0 ∧
    (generate_magic_word lcReportExample).testBit (15 - 0) =
      ((findSub (lcSection lcReportExample) ("<td>14105</td>".toList)).isSome ||
       (findSub (lcSection lcReportExample) ("<td>14110</td>".toList)).isSome) :=
  ⟨generate_magic_word_spec.1 _ (by decide),
   generate_magic_word_spec.2.2 _ (by decide) 0 _ _ 0x8000 (by decide) (by decide)⟩

/-- Classification fails (Python `None`) on every unrecognized size. -/
theorem check_memory_card_none_of_size (buf : List Nat)
    (h : buf.length ∉ ([131072, 131200, 131136, 262144, 134976] : List Nat)) :
    check_memory_card buf = none := by
  have h1 : buf.length ≠ 131072 := fun he => h (by simp [he])
  have h2 : buf.length ≠ 131200 := fun he => h (by simp [he])
  have h3 : buf.length ≠ 131136 := fun he => h (by simp [he])
  have h4 : buf.length ≠ 262144 := fun he => h (by simp [he])
  have h5 : buf.length ≠ 134976 := fun he => h (by simp [he])
  simp [check_memory_card, h1, h2, h3, h4, h5]

/-- C6: memory-card classification recognizes exactly the sizes
131072, 131200, 131136, 262144, 134976 with header-skip offsets
0, 128, 64, 0, 3904, reading two sequential 131072-byte images only in the
262144-byte case and one otherwise. -/
theorem check_memory_card_spec (buf : List Nat) :
    (buf.length = 131072 → check_memory_card buf = some [buf]) ∧
    (buf.length = 131200 → check_memory_card buf = some [buf.drop 128]) ∧
    (buf.length = 131136 → check_memory_card buf = some [buf.drop 64]) ∧
    (buf.length = 262144 →
      check_memory_card buf = some [buf.take 131072, buf.drop 131072]) ∧
    (buf.length = 134976 → check_memory_card buf = some [buf.drop 3904]) ∧
    (buf.length ∉ ([131072, 131200, 131136, 262144, 134976] : List Nat) →
      check_memory_card buf = none) := by
  refine ⟨?_, ?_, ?_, ?_, ?_, check_memory_card_none_of_size buf⟩ <;>
    intro h <;>
    simp [check_memory_card, h, List.take_of_length_le, List.length_drop]

/-- Witness for C6: a 262144-byte input yields exactly the two images
`buf[0:131072]`, `buf[131072:262144]`; a 131200-byte input yields the one
image `buf[128:131200]`. -/
theorem check_memory_card_spec_witness :
    check_memory_card (List.replicate 262144 7) =
      some [(List.replicate 262144 7).take 131072,
            (List.replicate 262144 7).drop 131072] ∧
    check_memory_card (List.replicate 131200 3) =
      some [(List.replicate 131200 3).drop 128] :=
  ⟨(check_memory_card_spec _).2.2.2.1 (List.length_replicate 262144 7),
   (check_memory_card_spec _).2.1 (List.length_replicate 131200 3)⟩

/-- C7: for every input whose size is not one of the five recognized
memory-card sizes, classification fails (the function returns Python
`None`, the failure the spec names UnrecognizedFormatError); the failure
is fatal for that input only: the caller keeps the file as a
non-memory-card input and processes the remaining inputs unchanged. -/
theorem check_memory_card_unrecognized (buf : List Nat)
    (h : buf.length ∉ ([131072, 131200, 131136, 262144, 134976] : List Nat)) :
    check_memory_card buf = none ∧
    ∀ rest : List (List Nat),
      collect_inputs (buf :: rest) =
        ((collect_inputs rest).1, buf :: (collect_inputs rest).2) := by
  have hnone := check_memory_card_none_of_size buf h
  refine ⟨hnone, fun rest => ?_⟩
  by_cases hle : buf.length ≤ 262144 <;> simp [collect_inputs, hnone, hle]

/-- Witness for C7 at a 100-byte input followed by a valid card dump. -/
theorem check_memory_card_unrecognized_witness :
    check_memory_card (List.replicate 100 0) = none ∧
    collect_inputs [List.replicate 100 0, List.replicate 131072 5] =
      ((collect_inputs [List.replicate 131072 5]).1,
        List.replicate 100 0 :: (collect_inputs [List.replicate 131072 5]).2) :=
  ⟨(check_memory_card_unrecognized _ (by simp)).1,
   (check_memory_card_unrecognized _ (by simp)).2 _⟩

set_option maxRecDepth 8000 in
/-- C9 as stated is false on the code: the byte written at offset 131071
to establish the full 131072-byte extent is `bytes(1)`, a single ZERO
byte, not a non-zero sentinel. -/
theorem create_blank_mc_counterexample :
    create_blank_mc.size = 131072 ∧ create_blank_mc.byteAt 131071 = 0 := by
  decide

set_option maxRecDepth 8000 in
/-- C9 amended: `create_blank_mc` deterministically produces an image of
exactly 131072 bytes whose final byte is written as zero (the write's
purpose is establishing the buffer's full extent), with the 2-byte `MC`
magic at offset 0 and the fixed directory-entry patterns at a cadence of
0x80 across the prescribed ranges, plus the boundary record at 0x7f0 and
the 16-byte repeated pattern, byte-for-byte as the fixture prescribes. -/
theorem create_blank_mc_layout :
    create_blank_mc.size = 131072 ∧
    create_blank_mc.byteAt 131071 = 0 ∧
    create_blank_mc.byteAt 0 = 0x4d ∧ create_blank_mc.byteAt 1 = 0x43 ∧
    (∀ j, j < 32 → create_blank_mc.byteAt (0x70 + j) = mcPattern1.getD j 0) ∧
    (∀ i, i ∈ pyRange 0xf0 0x780 0x80 →
      ∀ j, j < 32 → create_blank_mc.byteAt (i + j) = mcPattern2.getD j 0) ∧
    (∀ j, j < 32 → create_blank_mc.byteAt (0x7f0 + j) = mcPattern3.getD j 0) ∧
    (∀ i, i ∈ pyRange 0x880 0x1190 0x80 →
      ∀ j, j < 16 → create_blank_mc.byteAt (i + j) = mcPattern4.getD j 0) := by
  decide

set_option maxRecDepth 8000 in
/-- Witness for the amended C9 at one offset of each repeated range. -/
theorem create_blank_mc_layout_witness :
    create_blank_mc.byteAt (0xf0 + 15) = mcPattern2.getD 15 0 ∧
    create_blank_mc.byteAt (0x880 + 0) = mcPattern4.getD 0 0 :=
  ⟨create_blank_mc_layout.2.2.2.2.2.1 0xf0 (by decide) 15 (by decide),
   create_blank_mc_layout.2.2.2.2.2.2.2 0x880 (by decide) 0 (by decide)⟩

/-- Any sufficient fuel computes the same chunking. -/
theorem chunksF_fuel (f1 : Nat) : ∀ (f2 : Nat) (img : List Nat),
    img.length ≤ f1 → img.length ≤ f2 → chunksF f1 img = chunksF f2 img := by
  induction f1 with
  | zero =>
    intro f2 img h1 h2
    have hnil : img = [] := List.eq_nil_of_length_eq_zero (Nat.le_zero.mp h1)
    cases f2 <;> simp [chunksF, hnil]
  | succ f1 ih =>
    intro f2 img h1 h2
    by_cases hnil : img = []
    · cases f2 <;> simp [chunksF, hnil]
    · cases f2 with
      | zero =>
        exact absurd (List.eq_nil_of_length_eq_zero (Nat.le_zero.mp h2)) hnil
      | succ f2 =>
        have hlen : 0 < img.length := List.length_pos.mpr hnil
        simp only [chunksF, hnil, if_neg, ite_false]
        rw [ih f2 (img.drop 0x9300) (by simp [List.length_drop]; omega)
          (by simp [List.length_drop]; omega)]

/-- The window loop is the per-window patch concatenated over the
chunking. -/
theorem autoPatchF_eq_chunks (fuel : Nat) : ∀ (img : List Nat) (mw : Nat),
    img.length ≤ fuel →
    autoPatchF fuel img mw =
      ((chunksF fuel img).map (fun w => patchWindow w mw)).flatten := by
  induction fuel with
  | zero => intro img mw h; simp [autoPatchF, chunksF]
  | succ fuel ih =>
    intro img mw h
    by_cases hnil : img = []
    · simp [autoPatchF, chunksF, hnil]
    · have hlen : 0 < img.length := List.length_pos.mpr hnil
      simp only [autoPatchF, chunksF, hnil, ite_false, List.map_cons,
        List.flatten_cons]
      rw [ih (img.drop 0x9300) mw (by simp [List.length_drop]; omega)]

/-- The whole automatic pass equals the per-window patch over the
non-overlapping 0x9300-byte windows. -/
theorem apply_ppf_auto_eq_chunks (img : List Nat) (mw : Nat) :
    apply_ppf_auto img mw =
      ((chunksOf img).map (fun w => patchWindow w mw)).flatten :=
  autoPatchF_eq_chunks img.length img mw le_rfl

/-- A found occurrence of a nonempty needle fits inside the haystack. -/
theorem findSub_some_le_length {α : Type} [DecidableEq α] (hay pat : List α)
    (p : Nat) (hpat : pat ≠ []) (h : findSub hay pat = some p) :
    p + pat.length ≤ hay.length := by
  have hocc := findSub_sound hay pat p h
  have hlen := congrArg List.length hocc
  simp only [List.length_take, List.length_drop] at hlen
  have hmin : min pat.length (hay.length - p) ≤ hay.length - p :=
    Nat.min_le_right _ _
  rw [hlen] at hmin
  have hp0 : 0 < pat.length := List.length_pos.mpr hpat
  omega

/-- Value of `set` at its own index. -/
theorem getElem?_set_self (l : List Nat) (i : Nat) (v : Nat)
    (h : i < l.length) : (l.set i v)[i]? = some v := by
  simp [List.getElem?_set, h]

/-- Value of `set` away from its index. -/
theorem getElem?_set_other (l : List Nat) (i j : Nat) (v : Nat) (h : i ≠ j) :
    (l.set i v)[j]? = l[j]? := by
  simp [List.getElem?_set, h]

/-- Byte view of an occurrence of the signature. -/
theorem sig_occurrence_bytes (w : List Nat) (p : Nat)
    (hp : (w.drop p).take 4 = libcryptSig) :
    ∀ k, k < 4 → w[p + k]? = libcryptSig[k]? := by
  intro k hk
  have := congrArg (fun l => l[k]?) hp
  simpa [List.getElem?_take, hk, List.getElem?_drop] using this

/-- Two occurrences of the libcrypt signature cannot overlap: the
signature has no nontrivial self-overlap, so a later occurrence starts at
least four bytes further. -/
theorem sig_no_overlap (w : List Nat) (p q : Nat) (hpq : p < q)
    (hp : (w.drop p).take 4 = libcryptSig) (hq : (w.drop q).take 4 = libcryptSig) :
    p + 4 ≤ q := by
  by_contra hlt
  push_neg at hlt
  have hd : q = p + 1 ∨ q = p + 2 ∨ q = p + 3 := by omega
  have e1 : w[q + 0]? = libcryptSig[0]? := sig_occurrence_bytes w q hq 0 (by omega)
  rcases hd with hd | hd | hd
  · have e2 : w[p + 1]? = libcryptSig[1]? := sig_occurrence_bytes w p hp 1 (by omega)
    subst hd
    simp only [Nat.add_zero] at e1
    rw [e1] at e2
    simp [libcryptSig] at e2
  · have e2 : w[p + 2]? = libcryptSig[2]? := sig_occurrence_bytes w p hp 2 (by omega)
    subst hd
    simp only [Nat.add_zero] at e1
    rw [e1] at e2
    simp [libcryptSig] at e2
  · have e2 : w[p + 3]? = libcryptSig[3]? := sig_occurrence_bytes w p hp 3 (by omega)
    subst hd
    simp only [Nat.add_zero] at e1
    rw [e1] at e2
    simp [libcryptSig] at e2

/-- C4 as stated is false on the code: here the image consists of one
window whose only signature occurrence starts at window-relative offset 0,
and the pass leaves the image untouched — the bytes at the occurrence are
not overwritten with the little-endian magic word, because the match test
`pos > 0` rejects offset 0. -/
theorem apply_ppf_auto_counterexample :
    apply_ppf_auto [0x25, 0x30, 0x86, 0x00] 0x1234 = [0x25, 0x30, 0x86, 0x00] ∧
    ([0x25, 0x30, 0x86, 0x00] : List Nat).take 4 = libcryptSig ∧
    ([0x25, 0x30] : List Nat) ≠ [0x1234 % 256, 0x1234 / 256 % 256] := by
  decide

/-- C4 amended: the image is scanned in non-overlapping 0x9300-byte
windows from start to end; within each window only the first occurrence
of the 4-byte signature is considered, and only when its window-relative
offset `p` is strictly positive; then the two bytes at `p` become the
little-endian `magic_word`, the following two bytes the little-endian
constant 0x34c6, and every byte outside `p..p+3` keeps its value. -/
theorem apply_ppf_auto_spec (img : List Nat) (mw : Nat) (hmw : mw < 65536) :
    apply_ppf_auto img mw =
      ((chunksOf img).map (fun w => patchWindow w mw)).flatten ∧
    ∀ w ∈ chunksOf img, ∀ p, findSub w libcryptSig = some p → 0 < p →
      (patchWindow w mw)[p]? = some (mw % 256) ∧
      (patchWindow w mw)[p + 1]? = some (mw / 256) ∧
      (patchWindow w mw)[p + 2]? = some 0xc6 ∧
      (patchWindow w mw)[p + 3]? = some 0x34 ∧
      ∀ i, i < p ∨ p + 4 ≤ i → (patchWindow w mw)[i]? = w[i]? := by
  refine ⟨apply_ppf_auto_eq_chunks img mw, ?_⟩
  intro w hw p hp hpos
  have hlen : p + 4 ≤ w.length := by
    have := findSub_some_le_length w libcryptSig p (by decide) hp
    simpa [libcryptSig] using this
  have hfind : pyFind w libcryptSig = (p : Int) := by simp [pyFind, hp]
  have hdiv : mw / 256 % 256 = mw / 256 :=
    Nat.mod_eq_of_lt (Nat.div_lt_of_lt_mul (by omega))
  have hpw : patchWindow w mw =
      (((w.set p (mw % 256)).set (p + 1) (mw / 256 % 256)).set (p + 2)
        0xc6).set (p + 3) 0x34 := by
    unfold patchWindow
    rw [hfind, if_pos (by exact_mod_cast hpos)]
    simp
  rw [hpw]
  refine ⟨?_, ?_, ?_, ?_, ?_⟩
  · rw [getElem?_set_other _ _ _ _ (by omega),
      getElem?_set_other _ _ _ _ (by omega),
      getElem?_set_other _ _ _ _ (by omega),
      getElem?_set_self _ _ _ (by omega)]
  · rw [getElem?_set_other _ _ _ _ (by omega),
      getElem?_set_other _ _ _ _ (by omega),
      getElem?_set_self _ _ _ (by simp [List.length_set]; omega), hdiv]
  · rw [getElem?_set_other _ _ _ _ (by omega),
      getElem?_set_self _ _ _ (by simp [List.length_set]; omega)]
  · rw [getElem?_set_self _ _ _ (by simp [List.length_set]; omega)]
  · intro i hi
    rw [getElem?_set_other _ _ _ _ (by omega),
      getElem?_set_other _ _ _ _ (by omega),
      getElem?_set_other _ _ _ _ (by omega),
      getElem?_set_other _ _ _ _ (by omega)]

/-- Witness for the amended C4: a five-byte image with the signature at
window offset 1 and magic word 0x8001. -/
theorem apply_ppf_auto_spec_witness :
    (patchWindow [0, 0x25, 0x30, 0x86, 0x00] 0x8001)[1]? = some (0x8001 % 256) ∧
    (patchWindow [0, 0x25, 0x30, 0x86, 0x00] 0x8001)[2]? = some (0x8001 / 256) ∧
    (patchWindow [0, 0x25, 0x30, 0x86, 0x00] 0x8001)[0]? =
      ([0, 0x25, 0x30, 0x86, 0x00] : List Nat)[0]? := by
  have h := (apply_ppf_auto_spec [0, 0x25, 0x30, 0x86, 0x00] 0x8001
    (by decide)).2 [0, 0x25, 0x30, 0x86, 0x00] (by decide) 1 (by decide) (by decide)
  exact ⟨h.1, h.2.1, h.2.2.2.2 0 (Or.inl (by decide))⟩

/-- C10: within each 0x9300-byte scan window the automatic patch
overwrites at most the first occurrence of the signature: a window whose
first occurrence starts at window-relative offset 0 is returned entirely
unchanged (the `pos > 0` test rejects it), and the bytes of every
non-first occurrence keep their values. -/
theorem apply_ppf_auto_window_once (img : List Nat) (mw : Nat) :
    apply_ppf_auto img mw =
      ((chunksOf img).map (fun w => patchWindow w mw)).flatten ∧
    ∀ w ∈ chunksOf img,
      (w.take 4 = libcryptSig → patchWindow w mw = w) ∧
      (∀ q, (w.drop q).take 4 = libcryptSig →
        (∃ r, r < q ∧ (w.drop r).take 4 = libcryptSig) →
        ∀ j, q ≤ j → j < q + 4 → (patchWindow w mw)[j]? = w[j]?) := by
  refine ⟨apply_ppf_auto_eq_chunks img mw, fun w hw => ⟨?_, ?_⟩⟩
  · intro hsig
    have hne : w ≠ [] := by
      intro h
      rw [h] at hsig
      simp [libcryptSig] at hsig
    have h0 : findSub w libcryptSig = some 0 := by
      cases w with
      | nil => exact absurd rfl hne
      | cons x t =>
        unfold findSub
        rw [if_pos (by simpa [libcryptSig] using hsig)]
    unfold patchWindow
    rw [show pyFind w libcryptSig = 0 from by simp [pyFind, h0]]
    simp
  · rintro q hq ⟨r, hr, hocc⟩ j hj1 hj2
    obtain ⟨p, hp, hple⟩ := findSub_min w libcryptSig r (by simpa [libcryptSig] using hocc)
    have hoccp : (w.drop p).take 4 = libcryptSig := by
      simpa [libcryptSig] using findSub_sound _ _ _ hp
    have hsep : p + 4 ≤ q := sig_no_overlap w p q (by omega) hoccp hq
    unfold patchWindow
    rw [show pyFind w libcryptSig = (p : Int) from by simp [pyFind, hp]]
    by_cases hpos : 0 < (p : Int)
    · rw [if_pos hpos]
      simp only [Int.toNat_natCast]
      rw [getElem?_set_other _ _ _ _ (by omega),
        getElem?_set_other _ _ _ _ (by omega),
        getElem?_set_other _ _ _ _ (by omega),
        getElem?_set_other _ _ _ _ (by omega)]
    · rw [if_neg hpos]

/-- Witness for C10: one window holding the signature at offsets 0 and 4;
nothing is patched and in particular the second occurrence's bytes are
unchanged. -/
theorem apply_ppf_auto_window_once_witness :
    patchWindow [0x25, 0x30, 0x86, 0x00, 0x25, 0x30, 0x86, 0x00] 0x1234 =
      [0x25, 0x30, 0x86, 0x00, 0x25, 0x30, 0x86, 0x00] ∧
    (patchWindow [0x25, 0x30, 0x86, 0x00, 0x25, 0x30, 0x86, 0x00] 0x1234)[5]? =
      ([0x25, 0x30, 0x86, 0x00, 0x25, 0x30, 0x86, 0x00] : List Nat)[5]? := by
  have h := (apply_ppf_auto_window_once
    [0x25, 0x30, 0x86, 0x00, 0x25, 0x30, 0x86, 0x00] 0x1234).2
    [0x25, 0x30, 0x86, 0x00, 0x25, 0x30, 0x86, 0x00] (by decide)
  exact ⟨h.1 (by decide),
    h.2 4 (by decide) ⟨0, by decide, by decide⟩ 5 (by decide) (by decide)⟩

/-- C8: table-driven patch application applies a registered literal patch
set when present; otherwise, with a registered archive reference, it
fetches, extracts the named member and applies it; with neither it warns
and leaves the image byte-for-byte untouched; and a failed fetch (non-200
status) likewise degrades to the warning with the image unchanged rather
than failing. -/
theorem apply_ppf_table_spec (fetch : String → Nat × List Nat)
    (extract : List Nat → String → List (Nat × List Nat))
    (e : LibcryptEntry) (img : List Nat) :
    (∀ ps, e.ppf = some ps →
      apply_ppf_table fetch extract (some e) img =
        some (applyPatchSet img ps, false)) ∧
    (e.ppf = none → e.ppfzip = none →
      apply_ppf_table fetch extract (some e) img = some (img, true)) ∧
    (∀ url member, e.ppf = none → e.ppfzip = some (url, member) →
      (fetch url).1 ≠ 200 →
      apply_ppf_table fetch extract (some e) img = some (img, true)) ∧
    (∀ url member, e.ppf = none → e.ppfzip = some (url, member) →
      (fetch url).1 = 200 →
      apply_ppf_table fetch extract (some e) img =
        some (applyPatchSet img (extract (fetch url).2 member), false)) := by
  refine ⟨?_, ?_, ?_, ?_⟩ <;> intros <;> simp_all [apply_ppf_table]

/-- Witness for C8: a registry row with only an archive reference and a
404 fetch leaves the image untouched with the warning flag set. -/
theorem apply_ppf_table_spec_witness :
    apply_ppf_table (fun _ => (404, [])) (fun _ _ => [])
      (some { ppf := none, ppfzip := some ("u", "m") }) [1, 2, 3] =
      some ([1, 2, 3], true) :=
  (apply_ppf_table_spec _ _ _ _).2.2.1 "u" "m" rfl rfl (by decide)
